import Mathlib

/-!
Verification of the mint/spearmint TLS 1.3 core against its specification.

The definitions below are a shallow embedding of the Go sources:
record layer (`record.go`), frame reader (`frame-reader.go`), client handshake
state machine (`client-state-machine.go`), handshake messages
(`handshake-messages.go`) and reverse-firewall proxy (`reverse-firewall.go`).
Bytes are `Nat` values with arithmetic taken `% 256` wherever Go's `byte`
overflows; byte buffers are `List Nat`; Go panics and runtime index errors are
explicit `none` / dedicated constructors; fallible operations return `Option`
or `Except`.  External collaborators (AEAD ciphers, the TLS presentation-
language codec of the `syntax` package and `extensions.go`, PRNG) are not part
of the sources and are modelled from the specification where a claim needs
them; such definitions carry a doc comment saying so.
-/

namespace Mint

/- ===================== Record layer (record.go) ===================== -/

/-- Constant `sequenceNumberLen` from record.go. -/
def sequenceNumberLen : Nat := 8

/-- Constant `recordHeaderLen` from record.go. -/
def recordHeaderLen : Nat := 5

/-- Constant `maxFragmentLen = 1 << 14` from record.go. -/
def maxFragmentLen : Nat := 2 ^ 14

/-- Enum value `RecordTypeAlert = 21`. -/
def recordTypeAlert : Nat := 21

/-- Enum value `RecordTypeHandshake = 22`. -/
def recordTypeHandshake : Nat := 22

/-- Enum value `RecordTypeApplicationData = 23`. -/
def recordTypeApplicationData : Nat := 23

/-- Go struct `TLSPlaintext`: a content type and a fragment of bytes. -/
structure TLSPlaintext where
  contentType : Nat
  fragment : List Nat
deriving DecidableEq, Repr

/-- External AEAD cipher (Go `cipher.AEAD`), an out-of-scope collaborator the
record layer consumes through `Overhead`, `Seal` and `Open`.  `sealData nonce pt`
returns the ciphertext; `openData nonce ct` returns the plaintext or `none` on
authentication failure. -/
structure AEAD where
  overhead : Nat
  sealData : List Nat → List Nat → List Nat
  openData : List Nat → List Nat → Option (List Nat)

/-- Loop body of `RecordLayer.incrementSequenceNumber`, acting on the
reversed `seq` and `nonce` buffers (the Go loop walks `i` from `ivLength-1`
downward).  The first argument counts the remaining loop iterations
(`sequenceNumberLen - 1 = 7` at the top-level call); exhausting it is the Go
`panic("TLS: sequence number wraparound")`, and running off the end of a
buffer is a Go index-out-of-range panic; both are `none`.  Each visited byte
is incremented mod 256 and the matching nonce byte is xor-updated with
`(seq[i]-1) ^ seq[i]` exactly as in the source. -/
def incSeqRev : Nat → List Nat → List Nat → Option (List Nat × List Nat)
  | 0, _, _ => none
  | _ + 1, [], _ => none
  | _ + 1, _ :: _, [] => none
  | k + 1, sb :: srest, nb :: nrest =>
    let sb' := (sb + 1) % 256
    let nb' := Nat.xor nb (Nat.xor ((sb' + 255) % 256) sb')
    if sb' ≠ 0 then some (sb' :: srest, nb' :: nrest)
    else
      match incSeqRev k srest nrest with
      | none => none
      | some (s, n) => some (sb' :: s, nb' :: n)

/-- Go `RecordLayer.incrementSequenceNumber`: a no-op when no key is installed
(`ivLength == 0`, i.e. the buffers are empty), otherwise increments the
zero-padded sequence number from its last byte and updates the touched nonce
bytes; `none` is a Go panic. -/
def incrementSequenceNumber (seq nonce : List Nat) : Option (List Nat × List Nat) :=
  if seq.length = 0 then some (seq, nonce)
  else
    match incSeqRev (sequenceNumberLen - 1) seq.reverse nonce.reverse with
    | none => none
    | some (s, n) => some (s.reverse, n.reverse)

/-- Sequence-state initialisation performed by `RecordLayer.Rekey`
(record.go lines 64-67): `seq` is zeroed to the IV length and `nonce` is a
copy of `iv`.  The AEAD construction from the key factory is omitted here;
the pair models the state after a successful `Rekey`. -/
def rekeySeqNonce (iv : List Nat) : List Nat × List Nat :=
  (List.replicate iv.length 0, iv)

/-- Iterates `incrementSequenceNumber` (one call per record read or written),
propagating the panic. -/
def incIter : Nat → List Nat × List Nat → Option (List Nat × List Nat)
  | 0, st => some st
  | n + 1, st =>
    match incrementSequenceNumber st.1 st.2 with
    | none => none
    | some st' => incIter n st'

/-- Go `RecordLayer.encrypt`: appends the real content type and `padLen` zero
bytes to the fragment, AEAD-seals the result in place with the current nonce
and emits it as an ApplicationData record. -/
def encrypt (A : AEAD) (nonce : List Nat) (pt : TLSPlaintext) (padLen : Nat) : TLSPlaintext :=
  { contentType := recordTypeApplicationData
    fragment := A.sealData nonce (pt.fragment ++ [pt.contentType] ++ List.replicate padLen 0) }

/-- Result of `RecordLayer.decrypt`: a plaintext with its padding length, the
`DecryptError` return, or a Go runtime panic (index out of range). -/
inductive DecResult where
  | ok : TLSPlaintext → Nat → DecResult
  | decryptError : DecResult
  | indexOutOfRange : DecResult
deriving DecidableEq, Repr

/-- Backward padding scan of `RecordLayer.decrypt` (the
`for ; padLen < decryptLen+1 && out.fragment[decryptLen-padLen-1] == 0; padLen++`
loop), expressed on the reversed plaintext buffer.  It skips zero bytes from
the end of the buffer and returns the padding length, the first non-zero byte
met (the inner content type) and the remaining reversed bytes.  `none` means
the scan consumed the whole buffer and the next access `out.fragment[-1]` is
a Go index-out-of-range panic. -/
def padScanRev : List Nat → Nat → Option (Nat × Nat × List Nat)
  | [], _ => none
  | b :: rest, acc => if b = 0 then padScanRev rest (acc + 1) else some (acc, b, rest)

/-- Go `RecordLayer.decrypt`: fails with `DecryptError` when the record is
shorter than the AEAD overhead or when AEAD open fails; otherwise the
plaintext buffer of length `decryptLen` (allocated zeroed, filled by `Open`)
is scanned backward past the zero padding, the located byte becomes the inner
content type, and the fragment is truncated before it. -/
def decrypt (A : AEAD) (nonce : List Nat) (pt : TLSPlaintext) : DecResult :=
  if pt.fragment.length < A.overhead then .decryptError
  else
    let decryptLen := pt.fragment.length - A.overhead
    match A.openData nonce pt.fragment with
    | none => .decryptError
    | some fr =>
      let buffer := fr.take decryptLen ++ List.replicate (decryptLen - fr.length) 0
      match padScanRev buffer.reverse 0 with
      | none => .indexOutOfRange
      | some (padLen, ctByte, restRev) => .ok ⟨ctByte, restRev.reverse⟩ padLen

/-- Concrete AEAD used by witnesses: zero overhead, identity seal and open. -/
def aeadId : AEAD := ⟨0, fun _ p => p, fun _ c => some c⟩

/-- Concrete AEAD used by witnesses: two bytes of tag overhead. -/
def aeadPad2 : AEAD := ⟨2, fun _ p => p ++ [9, 9], fun _ c => some (c.take (c.length - 2))⟩

/-- Error outcomes of the record-layer read path (`nextRecord`), including the
two Go runtime panics it can raise (the decrypt padding scan and the sequence
wraparound). -/
inductive RErr where
  | eof
  | unknownContentType
  | badVersion
  | ciphertextTooBig
  | decryptFailed
  | plaintextTooBig
  | runtimePanic
deriving DecidableEq, Repr

/-- State of a Go `RecordLayer` on the read side: the unread bytes of the
underlying connection, the peek cache (`cachedRecord` / `cachedError`), the
installed AEAD (if any) and the sequence/nonce buffers. -/
structure RL where
  stream : List Nat
  cached : Option TLSPlaintext
  cachedErr : Option RErr
  aead : Option AEAD
  seq : List Nat
  nonce : List Nat

/-- Debug flag referenced by `nextRecord`; its definition is outside the
sources.  Modelled from the spec: a configurable escape hatch for test
vectors, off by default. -/
def allowWrongVersionNumber : Bool := false

/-- Reading exactly `n` bytes from the connection
(`RecordLayer.readFullBuffer` with the connection modelled as a byte
sequence): returns the bytes and the rest, or `none` on EOF. -/
def readFull (n : Nat) (stream : List Nat) : Option (List Nat × List Nat) :=
  if n ≤ stream.length then some (stream.take n, stream.drop n) else none

/-- Go `RecordLayer.nextRecord`: serves the cached record if present,
otherwise reads a five-byte header, validates content type, version and size,
reads the fragment, decrypts it when a key is installed, checks the plaintext
size, caches the record and increments the sequence number.  The state is
returned alongside the result (the Go method mutates its receiver). -/
def nextRecord (r : RL) : Except RErr TLSPlaintext × RL :=
  match r.cached with
  | some pt =>
    match r.cachedErr with
    | some e => (.error e, r)
    | none => (.ok pt, r)
  | none =>
    match readFull recordHeaderLen r.stream with
    | none => (.error .eof, r)
    | some (header, rest1) =>
      let r1 : RL := { r with stream := rest1 }
      let ctype := header.getD 0 0
      if ¬(ctype = recordTypeAlert ∨ ctype = recordTypeHandshake ∨
            ctype = recordTypeApplicationData) then
        (.error .unknownContentType, r1)
      else if ¬allowWrongVersionNumber ∧ (header.getD 1 0 ≠ 3 ∨ header.getD 2 0 ≠ 1) then
        (.error .badVersion, r1)
      else
        let size := header.getD 3 0 * 256 + header.getD 4 0
        if size > maxFragmentLen + 256 then (.error .ciphertextTooBig, r1)
        else
          match readFull size r1.stream with
          | none => (.error .eof, r1)
          | some (frag, rest2) =>
            let r2 : RL := { r1 with stream := rest2 }
            let step : Except RErr TLSPlaintext :=
              match r.aead with
              | none => .ok ⟨ctype, frag⟩
              | some A =>
                match decrypt A r.nonce ⟨ctype, frag⟩ with
                | .decryptError => .error .decryptFailed
                | .indexOutOfRange => .error .runtimePanic
                | .ok pt' _ => .ok pt'
            match step with
            | .error e => (.error e, r2)
            | .ok pt =>
              if pt.fragment.length > maxFragmentLen then (.error .plaintextTooBig, r2)
              else
                match incrementSequenceNumber r.seq r.nonce with
                | none => (.error .runtimePanic, { r2 with cached := some pt })
                | some (s', n') =>
                  (.ok pt, { r2 with cached := some pt, seq := s', nonce := n' })

/-- Go `RecordLayer.PeekRecordType`: the content type of the next record,
without consuming it. -/
def PeekRecordType (r : RL) : Except RErr Nat × RL :=
  match nextRecord r with
  | (.ok pt, r') => (.ok pt.contentType, r')
  | (.error e, r') => (.error e, r')

/-- Go `RecordLayer.ReadRecord`: reads the next record and consumes the peek
cache. -/
def ReadRecord (r : RL) : Except RErr TLSPlaintext × RL :=
  match nextRecord r with
  | (res, r') => (res, { r' with cached := none, cachedErr := none })

/-- Concrete record-layer state used by witnesses: one plaintext Alert record
`[21, 3, 1, 0, 1, 99]` buffered, no key installed. -/
def rlDemo : RL := ⟨[21, 3, 1, 0, 1, 99], none, none, none, [], []⟩

/-- The state `rlDemo` reaches after a successful peek: the stream is drained
and the record `⟨21, [99]⟩` is cached. -/
def rlDemoPeeked : RL := ⟨[], some ⟨21, [99]⟩, none, none, [], []⟩

/- ================= Frame reader (frame-reader.go) ================= -/

/-- Go `framing` interface: the header length and the header-to-body-length
function `frameLen`, which may fail (`defaultReadLen` is unused by
`Process`). -/
structure Framing where
  headerLen : Nat
  frameLen : List Nat → Option Nat

/-- Non-frame outcomes of `FrameReader.Process`: the `WouldBlock` sentinel or
an error from `framing.frameLen`. -/
inductive FErr where
  | wouldBlock
  | frameLenError
deriving DecidableEq, Repr

/-- State of a Go `FrameReader`.  `mode` is `f.state`
(`false = kFrameReaderHdr`, `true = kFrameReaderBody`); `hdrBuf` holds the
contents of `f.header` (the completed header while a body is being read);
`filled` is the written prefix of the working buffer
(`f.working[:f.writeOffset]`); `target` is `len(f.working)`; `remainder` is
the buffered, not yet consumed input. -/
structure FR where
  mode : Bool
  hdrBuf : List Nat
  filled : List Nat
  target : Nat
  remainder : List Nat
deriving DecidableEq, Repr

/-- Go `NewFrameReader`: header mode, zeroed header buffer, no input. -/
def newFrameReader (F : Framing) : FR :=
  ⟨false, List.replicate F.headerLen 0, [], F.headerLen, []⟩

/-- Go `FrameReader.AddChunk`: append a chunk to the buffered remainder. -/
def addChunk (s : FR) (b : List Nat) : FR :=
  { s with remainder := s.remainder ++ b }

/-- Go `FrameReader.needed()`: bytes missing before the working buffer can be
completed from the remainder, clamped at zero as in the source. -/
def needed (s : FR) : Nat :=
  (s.target - s.filled.length) - s.remainder.length

/-- The copy at the head of the `Process` loop: move bytes from the remainder
into the working buffer (`copy(f.working[f.writeOffset:], f.remainder)`). -/
def fillStep (s : FR) : FR :=
  { s with filled := s.filled ++ s.remainder.take (s.target - s.filled.length),
           remainder := s.remainder.drop (s.target - s.filled.length) }

/-- Body phase of `FrameReader.Process`: one loop iteration in body mode,
which either completes the body and emits the `(header, body)` frame
(resetting to header mode) or reports `WouldBlock`. -/
def processBody (F : Framing) (s : FR) : Except FErr (List Nat × List Nat) × FR :=
  if needed s = 0 then
    let s1 := fillStep s
    if s1.filled.length < s1.target then (.error .wouldBlock, s1)
    else (.ok (s.hdrBuf, s1.filled), ⟨false, s.hdrBuf, [], F.headerLen, s1.remainder⟩)
  else (.error .wouldBlock, s)

/-- Go `FrameReader.Process`: in header mode, complete the header when enough
bytes are buffered, compute the body length via `frameLen` and fall through to
the body phase; in body mode run the body phase directly.  `WouldBlock` is
returned whenever the loop guard `needed() == 0` fails. -/
def Process (F : Framing) (s : FR) : Except FErr (List Nat × List Nat) × FR :=
  if s.mode then processBody F s
  else if needed s = 0 then
    let s1 := fillStep s
    if s1.filled.length < s1.target then (.error .wouldBlock, s1)
    else
      match F.frameLen s1.filled with
      | none => (.error .frameLenError, ⟨false, s.hdrBuf, [], s.target, s1.remainder⟩)
      | some bodyLen => processBody F ⟨true, s1.filled, [], bodyLen, s1.remainder⟩
  else (.error .wouldBlock, s)

/-- Driver: call `Process` repeatedly, collecting the emitted frames, until it
reports `WouldBlock` (a `some` result); `none` when the fuel runs out or
`frameLen` fails. -/
def drive (F : Framing) : Nat → FR → Option (List (List Nat × List Nat) × FR)
  | 0, _ => none
  | fuel + 1, s =>
    match Process F s with
    | (.ok fr, s') =>
      match drive F fuel s' with
      | none => none
      | some (l, s'') => some (fr :: l, s'')
    | (.error .wouldBlock, s') => some ([], s')
    | (.error .frameLenError, _) => none

/-- Chunked delivery: for each `(chunk, fuel)` pair, add the chunk and drive
the reader until it blocks, concatenating the emitted frames in order. -/
def multiRun (F : Framing) : List (List Nat × Nat) → FR → Option (List (List Nat × List Nat) × FR)
  | [], s => some ([], s)
  | (c, n) :: rest, s =>
    match drive F n (addChunk s c) with
    | none => none
    | some (l1, s1) =>
      match multiRun F rest s1 with
      | none => none
      | some (l2, s2) => some (l1 ++ l2, s2)

/-- Demo framing used by witnesses: a two-byte big-endian length header (the
`simpleHeader` of the frame-reader tests). -/
def framingDemo : Framing :=
  ⟨2, fun h => match h with | [a, b] => some (a * 256 + b) | _ => none⟩

/- ======= Client handshake state machine (client-state-machine.go) ======= -/

/-- Handshake type value `HandshakeTypeClientHello = 1`. -/
def handshakeTypeClientHello : Nat := 1

/-- Handshake type value `HandshakeTypeServerHello = 2`. -/
def handshakeTypeServerHello : Nat := 2

/-- Alert code `AlertUnexpectedMessage`.  Modelled from the spec: the alert
enum is defined outside the sources; the values are the TLS alert numbers. -/
def alertUnexpectedMessage : Nat := 10

/-- Alert code `AlertHandshakeFailure` (modelled from the spec). -/
def alertHandshakeFailure : Nat := 40

/-- Alert code `AlertIllegalParameter` (modelled from the spec). -/
def alertIllegalParameter : Nat := 47

/-- Alert code `AlertProtocolVersion` (modelled from the spec). -/
def alertProtocolVersion : Nat := 70

/-- Modelled from the spec: the supported TLS version constant
(`supportedVersion`), defined outside the sources; its concrete value does
not matter to the claims. -/
def supportedVersion : Nat := 0x7f12

/-- Modelled from the spec: the Cookie extension type identifier (the
extension-type enum lives outside the sources; only distinctness of the
identifiers matters to the claims). -/
def extensionTypeCookie : Nat := 44

/-- Modelled from the spec: the KeyShare extension type identifier (outside
the sources). -/
def extensionTypeKeyShare : Nat := 40

/-- Modelled from the spec: the BN256 named-group identifier the firewall
build adds (`BN256`), defined outside the sources; its concrete value does
not matter to the claims. -/
def BN256 : Nat := 666

/-- An extension as stored in an extension list.  Modelled from the spec:
an `Extension` is a `(type: uint16, data: bytes)` pair and extension lists
preserve unknown extensions as opaque data (`extensions.go` is outside the
sources). -/
structure Ext where
  extType : Nat
  data : List Nat
deriving DecidableEq, Repr

/-- Go `ClientHelloBody` (handshake-messages.go): random, cipher suites and
the extension list; the legacy fields are omitted by the struct and re-emitted
with fixed values by `Marshal`. -/
structure ClientHelloBody where
  random : List Nat
  cipherSuites : List Nat
  extensions : List Ext
deriving DecidableEq, Repr

/-- Slice of `ClientStateStart.Next` (client-state-machine.go lines 106-118):
the base ClientHello is built from the capability cipher suites, its 32-byte
`Random` is filled from the PRNG (`prng.Read(ch.Random[:])`; the drawn bytes
are passed here as `prngDraw`), and then the loop
`for i := range ch.Random { ch.Random[i] = 0 }` overwrites every byte with
zero.  The extensions added later in `Next` do not touch the random field and
are left empty here. -/
def clientStateStartHello (suites : List Nat) (prngDraw : List Nat) : ClientHelloBody :=
  let ch : ClientHelloBody := { random := prngDraw, cipherSuites := suites, extensions := [] }
  { ch with random := ch.random.map fun _ => 0 }

/-- Message bodies a `ClientStateWaitSH` transition distinguishes
(`HandshakeMessage.ToBody`): a HelloRetryRequest, a ServerHello, or any other
message. -/
inductive HSBody where
  | helloRetryRequest (version : Nat) (cipherSuite : Nat) (extensions : List Ext)
  | serverHello (version : Nat) (cipherSuite : Nat) (extensions : List Ext)
  | other
deriving DecidableEq, Repr

/-- Go state `ClientStateWaitSH`, restricted to the fields its
HelloRetryRequest branch reads: the capability cipher suites and the
previously processed HelloRetryRequest, if any. -/
structure ClientStateWaitSH where
  cipherSuites : List Nat
  helloRetryRequest : Option HSBody
deriving DecidableEq, Repr

/-- Outcome of a `ClientStateWaitSH.Next` transition: a fatal alert (the next
state is ignored), the loop back to START through
`ClientStateStart{...}.Next(nil)` after a first HelloRetryRequest (carrying
the narrowed cipher suite and the server cookie), or the ServerHello
continuation towards WAIT_EE (whose key-schedule contents are beyond this
claim and abstracted). -/
inductive WaitSHOutcome where
  | fatalAlert (alert : Nat)
  | restartWithCookie (suite : Nat) (cookie : List Nat)
  | proceedServerHello (version : Nat) (suite : Nat) (extensions : List Ext)
deriving DecidableEq, Repr

/-- Go `ClientStateWaitSH.Next` (client-state-machine.go lines 310-492), with
the HelloRetryRequest branch modelled in full: a nil message or an unexpected
body is `AlertUnexpectedMessage`; a second HRR — the state already records
one — is `AlertUnexpectedMessage`; then the version check, the cipher-suite
support check, and the requirement that the extension list is exactly one
Cookie extension; on success the transition loops back to START.  The
ServerHello branch is abstracted as `proceedServerHello`. -/
def clientStateWaitSHNext (st : ClientStateWaitSH) (hm : Option HSBody) : WaitSHOutcome :=
  match hm with
  | none => .fatalAlert alertUnexpectedMessage
  | some body =>
    match body with
    | .helloRetryRequest ver suite exts =>
      if st.helloRetryRequest.isSome then .fatalAlert alertUnexpectedMessage
      else if ver ≠ supportedVersion then .fatalAlert alertProtocolVersion
      else if ¬(suite ∈ st.cipherSuites) then .fatalAlert alertHandshakeFailure
      else
        match exts.find? (fun e => e.extType == extensionTypeCookie) with
        | some e =>
          if exts.length = 1 then .restartWithCookie suite e.data
          else .fatalAlert alertIllegalParameter
        | none => .fatalAlert alertIllegalParameter
    | .serverHello ver suite exts => .proceedServerHello ver suite exts
    | .other => .fatalAlert alertUnexpectedMessage

/- ========= CertificateVerify input (handshake-messages.go) ========= -/

/-- The fixed context string of `CertificateVerifyBody.EncodeSignatureInput`:
`const context = "TLS 1.3, server CertificateVerify"`. -/
def cvContextString : String := "TLS 1.3, server CertificateVerify"

/-- Go `CertificateVerifyBody.EncodeSignatureInput`: 64 bytes of `0x20`, the
fixed context string, a single zero byte, then the hashed transcript data.
The same function is used by `Sign` and by `Verify`, on the client and on the
server alike. -/
def encodeSignatureInput (data : List Nat) : List Nat :=
  List.replicate 64 0x20 ++ cvContextString.toList.map Char.toNat ++ [0] ++ data

/-- Which endpoint produces a CertificateVerify signature. -/
inductive SignRole where
  | server
  | client
deriving DecidableEq, Repr

/-- Modelled from the spec: the context string the spec prescribes per signing
role — `"TLS 1.3, server CertificateVerify"` or the client variant. -/
def specContextString : SignRole → String
  | .server => "TLS 1.3, server CertificateVerify"
  | .client => "TLS 1.3, client CertificateVerify"

/-- Modelled from the spec: the CertificateVerify signature input as the spec
words it — 64 `0x20` bytes, the role-dependent ASCII context string
terminated by a NUL byte, then the transcript hash. -/
def specSignatureInput (role : SignRole) (hash : List Nat) : List Nat :=
  List.replicate 64 0x20 ++ (specContextString role).toList.map Char.toNat ++ [0] ++ hash

/- ========= Reverse-firewall proxy (reverse-firewall.go) ========= -/

/-- Big-endian two-byte encoding of a 16-bit quantity.  Modelled from the
spec: the `syntax` codec (outside the sources) emits fixed-width integers
big-endian. -/
def u16 (n : Nat) : List Nat := [n / 256 % 256, n % 256]

/-- Read a big-endian 16-bit quantity off the front of a buffer. -/
def readU16 : List Nat → Option (Nat × List Nat)
  | a :: b :: rest => some (a * 256 + b, rest)
  | _ => none

/-- Split off the first `n` bytes, failing when fewer are available. -/
def takeBytes (n : Nat) (b : List Nat) : Option (List Nat × List Nat) :=
  if n ≤ b.length then some (b.take n, b.drop n) else none

/-- Modelled from the spec: marshal one extension — two-byte type, two-byte
data length, data. -/
def extMarshal (e : Ext) : List Nat :=
  u16 e.extType ++ u16 e.data.length ++ e.data

/-- Modelled from the spec: marshal an extension list behind its two-byte
total-length prefix. -/
def extListMarshal (es : List Ext) : List Nat :=
  u16 ((es.map extMarshal).flatten).length ++ (es.map extMarshal).flatten

/-- Modelled from the spec: parse consecutive extensions.  The first argument
is recursion fuel; callers pass the byte count, which suffices because every
extension consumes at least its four header bytes. -/
def parseExts : Nat → List Nat → Option (List Ext)
  | _, [] => some []
  | 0, _ :: _ => none
  | fuel + 1, b =>
    match readU16 b with
    | none => none
    | some (t, r1) =>
      match readU16 r1 with
      | none => none
      | some (len, r2) =>
        match takeBytes len r2 with
        | none => none
        | some (d, r3) =>
          match parseExts fuel r3 with
          | none => none
          | some es => some (⟨t, d⟩ :: es)

/-- Modelled from the spec: parse a packed sequence of 16-bit values (the
cipher-suite vector), fuel-bounded like `parseExts`. -/
def parseU16s : Nat → List Nat → Option (List Nat)
  | _, [] => some []
  | 0, _ :: _ => none
  | fuel + 1, b =>
    match readU16 b with
    | none => none
    | some (v, r) =>
      match parseU16s fuel r with
      | none => none
      | some vs => some (v :: vs)

/-- Go `ClientHelloBody.Marshal` over the spec-modelled codec: fixed
`legacy_version = 0x0303`, the 32-byte random, an empty `legacy_session_id`,
the two-byte-headed cipher-suite vector, `legacy_compression_methods = [0]`,
then the extension list. -/
def chMarshal (ch : ClientHelloBody) : List Nat :=
  [3, 3] ++ ch.random ++ [0] ++ u16 (2 * ch.cipherSuites.length) ++
    (ch.cipherSuites.map u16).flatten ++ [1, 0] ++ extListMarshal ch.extensions

/-- Go `ClientHelloBody.Unmarshal` over the spec-modelled codec: parses the
inner struct, enforces `legacy_version = 0x0303` and a compression-method
list equal to `[0]`, accepts and drops a legacy session id of up to 32 bytes,
and keeps random, cipher suites and extensions.  Bytes after the extension
list are tolerated, as the caller discards the consumed count; vector bounds
the source does not re-check are omitted. -/
def chUnmarshal (b : List Nat) : Option ClientHelloBody :=
  match readU16 b with
  | none => none
  | some (ver, r1) =>
    match takeBytes 32 r1 with
    | none => none
    | some (random, r2) =>
      match r2 with
      | [] => none
      | sidLen :: r3 =>
        if sidLen > 32 then none
        else
          match takeBytes sidLen r3 with
          | none => none
          | some (_, r4) =>
            match readU16 r4 with
            | none => none
            | some (csLen, r5) =>
              match takeBytes csLen r5 with
              | none => none
              | some (csBytes, r6) =>
                match parseU16s csBytes.length csBytes with
                | none => none
                | some suites =>
                  match r6 with
                  | [] => none
                  | compLen :: r7 =>
                    match takeBytes compLen r7 with
                    | none => none
                    | some (comp, r8) =>
                      match readU16 r8 with
                      | none => none
                      | some (extsLen, r9) =>
                        match takeBytes extsLen r9 with
                        | none => none
                        | some (extBytes, _) =>
                          match parseExts extBytes.length extBytes with
                          | none => none
                          | some exts =>
                            if ver ≠ 0x0303 then none
                            else if ¬(comp = [0]) then none
                            else some ⟨random, suites, exts⟩

/-- Go `ServerHelloBody` (handshake-messages.go): version, random, the single
cipher suite and the extension list. -/
structure ServerHelloBody where
  version : Nat
  random : List Nat
  cipherSuite : Nat
  extensions : List Ext
deriving DecidableEq, Repr

/-- Go `ServerHelloBody.Marshal` over the spec-modelled codec. -/
def shMarshal (sh : ServerHelloBody) : List Nat :=
  u16 sh.version ++ sh.random ++ u16 sh.cipherSuite ++ extListMarshal sh.extensions

/-- Go `ServerHelloBody.Unmarshal` over the spec-modelled codec (no extra
validation in the source). -/
def shUnmarshal (b : List Nat) : Option ServerHelloBody :=
  match readU16 b with
  | none => none
  | some (ver, r1) =>
    match takeBytes 32 r1 with
    | none => none
    | some (random, r2) =>
      match readU16 r2 with
      | none => none
      | some (suite, r3) =>
        match readU16 r3 with
        | none => none
        | some (extsLen, r4) =>
          match takeBytes extsLen r4 with
          | none => none
          | some (extBytes, _) =>
            match parseExts extBytes.length extBytes with
            | none => none
            | some exts => some ⟨ver, random, suite, exts⟩

/-- Modelled from the spec: marshal one ClientHello KeyShare entry
`(group, key_exchange)` — two-byte group, two-byte key length, key. -/
def ksEntryMarshal (sh : Nat × List Nat) : List Nat :=
  u16 sh.1 ++ u16 sh.2.length ++ sh.2

/-- Modelled from the spec: the ClientHello `KeyShareExtension` data — a
two-byte total length followed by the entries. -/
def ksMarshal (shares : List (Nat × List Nat)) : List Nat :=
  u16 ((shares.map ksEntryMarshal).flatten).length ++ (shares.map ksEntryMarshal).flatten

/-- Modelled from the spec: parse consecutive KeyShare entries
(fuel-bounded). -/
def parseKSEntries : Nat → List Nat → Option (List (Nat × List Nat))
  | _, [] => some []
  | 0, _ :: _ => none
  | fuel + 1, b =>
    match readU16 b with
    | none => none
    | some (g, r1) =>
      match readU16 r1 with
      | none => none
      | some (len, r2) =>
        match takeBytes len r2 with
        | none => none
        | some (k, r3) =>
          match parseKSEntries fuel r3 with
          | none => none
          | some es => some ((g, k) :: es)

/-- Modelled from the spec: unmarshal the ClientHello `KeyShareExtension`
data. -/
def ksUnmarshal (d : List Nat) : Option (List (Nat × List Nat)) :=
  match readU16 d with
  | none => none
  | some (len, r) =>
    match takeBytes len r with
    | none => none
    | some (p, _) => parseKSEntries p.length p

/-- Modelled from the spec (`ExtensionList.Find` of extensions.go): locate the
first extension of the key-share type and unmarshal its data into a fresh
`KeyShareExtension` value; when absent or unparsable the zero value (no
shares) is left behind.  The returned value is a parsed copy: the list keeps
only the raw extension bytes. -/
def findKeyShares (es : List Ext) : List (Nat × List Nat) :=
  match es.find? (fun e => e.extType == extensionTypeKeyShare) with
  | some e => (ksUnmarshal e.data).getD []
  | none => []

/-- Go `parsePacket` (reverse-firewall.go): strip and validate the five-byte
record header (type 22, exact length match) and the four-byte handshake
header (the expected handshake type, exact length match), returning the
handshake body.  Go indexes the slice unconditionally, so inputs shorter than
a header are a panic, here `none`. -/
def parsePacket (ht : Nat) (b : List Nat) : Option (List Nat) :=
  match b with
  | b0 :: _ :: _ :: b3 :: b4 :: rest =>
    if b0 ≠ 22 then none
    else if b.length ≠ (b3 * 256 + b4) + 5 then none
    else
      match rest with
      | h0 :: h1 :: h2 :: h3 :: body =>
        if h0 ≠ ht then none
        else if rest.length ≠ ((h1 * 65536 + h2 * 256 + h3) + 4) then none
        else some body
      | _ => none
  | _ => none

/-- Go `writePacket` (reverse-firewall.go): record header `22 03 01` with a
two-byte length, then the handshake header with the type and a three-byte
length, then the body (byte casts truncate mod 256 as in Go). -/
def writePacket (ht : Nat) (body : List Nat) : List Nat :=
  [22, 3, 1, (body.length + 4) / 256 % 256, (body.length + 4) % 256] ++
    [ht, body.length / 65536 % 256, body.length / 256 % 256, body.length % 256] ++ body

/-- Go `ReverseFirewallProxy.processCH` (reverse-firewall.go lines 77-110):
parse the record as a ClientHello handshake packet, unmarshal the body, `Find`
the ClientHello KeyShare extension into a fresh parsed value, rerandomize the
BN256 entries of that parsed value (`rerandomizeForAgent` is an external
crypto collaborator, passed here as `rerand`; its error return is discarded
by the source), then re-marshal the ClientHello and re-frame it.  The loop
assigns the new key exchange into the parsed copy only
(`clientKeyShares.Shares[i].KeyExchange = newKeyShare`); nothing writes that
copy back into `ch.Extensions` — contrast `ClientStateStart.Next`, which
calls `ch.Extensions.Add(psk)` again after mutating the PSK extension — so
`ch.Marshal()` emits the original extension bytes and the rerandomized copy
(`_rrShares` here) is dropped. -/
def processCH (rerand : List Nat → List Nat) (input : List Nat) : Option (List Nat) :=
  match parsePacket handshakeTypeClientHello input with
  | none => none
  | some chb =>
    match chUnmarshal chb with
    | none => none
    | some ch =>
      let clientKeyShares := findKeyShares ch.extensions
      let _rrShares := clientKeyShares.map
        (fun sh => if sh.1 = BN256 then (sh.1, rerand sh.2) else sh)
      some (writePacket handshakeTypeClientHello (chMarshal ch))

/-- Go `ReverseFirewallProxy.processSH` (reverse-firewall.go lines 112-149):
parse the record as a ServerHello handshake packet, unmarshal, inspect the
KeyShare (the rewriting of the server share is commented out in the source),
re-marshal and re-frame. -/
def processSH (input : List Nat) : Option (List Nat) :=
  match parsePacket handshakeTypeServerHello input with
  | none => none
  | some shb =>
    match shUnmarshal shb with
    | none => none
    | some sh =>
      let _serverKeyShare := findKeyShares sh.extensions
      some (writePacket handshakeTypeServerHello (shMarshal sh))

/-- Go `ReverseFirewallProxy.ProcessMessage`: the first C→S message
(`C2S = 1`, `readCH` still false) goes through `processCH`, which sets
`readCH`; the first S→C message (`S2C = 2`) through `processSH`; every other
message is forwarded unchanged.  The proxy state is the boolean pair
`(readCH, readSH)`; `none` is a processing error, fatal to the proxied
connection. -/
def ProcessMessage (rerand : List Nat → List Nat) (readCH readSH : Bool) (d : Nat)
    (input : List Nat) : Option (List Nat × Bool × Bool) :=
  if d = 1 ∧ ¬readCH then
    match processCH rerand input with
    | none => none
    | some out => some (out, true, readSH)
  else if d = 2 ∧ ¬readSH then
    match processSH input with
    | none => none
    | some out => some (out, readCH, true)
  else some (input, readCH, readSH)

/-- Modelled from the spec (§4.7, scenario 7): the C→S rewrite the
specification requires — the emitted ClientHello must be identical to the
parsed one except that every KeyShare entry whose group is BN256 carries
`rerandomize_for_agent` of the old key exchange, all other fields, extensions
and their order preserved, with the record framing rebuilt. -/
def specProcessCH (rerand : List Nat → List Nat) (input : List Nat) : Option (List Nat) :=
  match parsePacket handshakeTypeClientHello input with
  | none => none
  | some chb =>
    match chUnmarshal chb with
    | none => none
    | some ch =>
      let exts := ch.extensions.map (fun e =>
        if e.extType = extensionTypeKeyShare then
          match ksUnmarshal e.data with
          | some shares =>
            ⟨e.extType, ksMarshal (shares.map
              (fun sh => if sh.1 = BN256 then (sh.1, rerand sh.2) else sh))⟩
          | none => e
        else e)
      some (writePacket handshakeTypeClientHello (chMarshal { ch with extensions := exts }))

/-- Concrete ClientHello used by the C4 evidence: zero random, one cipher
suite, one KeyShare extension holding a single BN256 entry with key
exchange `[5]`. -/
def chDemo : ClientHelloBody :=
  ⟨List.replicate 32 0, [0x1301], [⟨extensionTypeKeyShare, ksMarshal [(BN256, [5])]⟩]⟩

/-- The C4 evidence input: `chDemo` framed as a ClientHello handshake
record. -/
def chDemoPacket : List Nat := writePacket handshakeTypeClientHello (chMarshal chDemo)

/-- A concrete stand-in for `rerandomizeForAgent` that visibly changes the key
exchange. -/
def rerandDemo : List Nat → List Nat := fun _ => [7]

end Mint

/- ===================== Theorems ===================== -/

namespace Mint

/-- Helper for C1: when the next 7 loop iterations all see a byte 255, every
increment wraps to zero and the loop falls through to the panic. -/
theorem incSeqRev_all255 (k : Nat) :
    ∀ (rest n : List Nat), incSeqRev k (List.replicate k 255 ++ rest) n = none := by
  induction k with
  | zero => intro rest n; rfl
  | succ k ih =>
    intro rest n
    cases n with
    | nil => rfl
    | cons nb nrest =>
      simp only [List.replicate_succ, List.cons_append, incSeqRev]
      norm_num
      rw [ih rest nrest]

/-- Helper: `Nat.xor` is the `HXor` operation on `Nat`. -/
theorem xorn (a b : Nat) : Nat.xor a b = a ^^^ b := rfl

/-- Helper: xor with a zero list of matching length is the identity. -/
theorem zipWith_xor_replicate_zero :
    ∀ l : List Nat, List.zipWith Nat.xor l (List.replicate l.length 0) = l := by
  intro l
  induction l with
  | nil => rfl
  | cons a t ih => simp [List.replicate_succ, ih, xorn]

/-- Helper: `zipWith` commutes with `reverse` on lists of equal length. -/
theorem zipWith_reverse_comm (f : Nat → Nat → Nat) :
    ∀ (l₁ l₂ : List Nat), l₁.length = l₂.length →
      (List.zipWith f l₁ l₂).reverse = List.zipWith f l₁.reverse l₂.reverse := by
  intro l₁
  induction l₁ with
  | nil => intro l₂ h; cases l₂ <;> simp_all
  | cons a t ih =>
    intro l₂ h
    cases l₂ with
    | nil => simp at h
    | cons b t₂ =>
      simp only [List.length_cons, Nat.succ_inj] at h
      simp only [List.zipWith_cons_cons, List.reverse_cons, ih t₂ h]
      rw [List.zipWith_append _ _ _ _ _ (by simp [h])]
      simp

/-- Helper: Go byte decrement recovers the old value: for a byte `b < 256`,
`((b+1) % 256 + 255) % 256 = b`. -/
theorem byte_decrement (b : Nat) (hb : b < 256) : ((b + 1) % 256 + 255) % 256 = b := by
  omega

/-- Helper: xor cancellation `(a ^^^ b) ^^^ (b ^^^ c) = a ^^^ c` on `Nat`. -/
theorem xor_cancel_mid (a b c : Nat) : Nat.xor (Nat.xor a b) (Nat.xor b c) = Nat.xor a c := by
  simp only [xorn]
  rw [Nat.xor_assoc a b (b ^^^ c), ← Nat.xor_assoc b b c, Nat.xor_self, Nat.zero_xor]

/-- Helper for C2: one pass of the increment loop (on reversed buffers)
preserves the relation `nonce = iv XOR seq` together with the byte bounds and
the length of `seq`. -/
theorem incSeqRev_xor (k : Nat) :
    ∀ (ivR sR nR sR' nR' : List Nat),
      sR.length = ivR.length →
      (∀ b ∈ sR, b < 256) →
      nR = List.zipWith Nat.xor ivR sR →
      incSeqRev k sR nR = some (sR', nR') →
      sR'.length = ivR.length ∧ (∀ b ∈ sR', b < 256) ∧
        nR' = List.zipWith Nat.xor ivR sR' := by
  induction k with
  | zero => intro ivR sR nR sR' nR' _ _ _ h; simp [incSeqRev] at h
  | succ k ih =>
    intro ivR sR nR sR' nR' hlen hbound hxor h
    cases sR with
    | nil => simp [incSeqRev] at h
    | cons sb srest =>
      cases ivR with
      | nil => simp at hlen
      | cons ivb ivrest =>
        simp only [List.zipWith_cons_cons] at hxor
        subst hxor
        simp only [List.length_cons, Nat.succ_inj] at hlen
        have hsb : sb < 256 := hbound sb (List.mem_cons_self _ _)
        have hrest : ∀ b ∈ srest, b < 256 := fun b hb => hbound b (List.mem_cons_of_mem _ hb)
        simp only [incSeqRev] at h
        have hdec : (((sb + 1) % 256) + 255) % 256 = sb := byte_decrement sb hsb
        rw [hdec] at h
        by_cases hz : (sb + 1) % 256 = 0
        · rw [hz] at h
          simp only [ne_eq, not_true_eq_false, if_false] at h
          cases hrec : incSeqRev k srest (List.zipWith Nat.xor ivrest srest) with
          | none => rw [hrec] at h; simp at h
          | some p =>
            obtain ⟨s, n⟩ := p
            rw [hrec] at h
            simp only [Option.some_inj] at h
            obtain ⟨hs, hn⟩ := Prod.mk.injEq _ _ _ _ ▸ h
            obtain ⟨hlen', hbound', hxor'⟩ := ih ivrest srest _ s n hlen hrest rfl hrec
            subst hs hn
            refine ⟨by simp [hlen'], ?_, ?_⟩
            · intro b hb
              rcases List.mem_cons.mp hb with hb | hb
              · subst hb; omega
              · exact hbound' b hb
            · simp only [List.zipWith_cons_cons, hxor', hz]
              rw [xor_cancel_mid]
        · rw [if_pos hz] at h
          simp only [Option.some_inj] at h
          obtain ⟨hs, hn⟩ := Prod.mk.injEq _ _ _ _ ▸ h
          subst hs hn
          refine ⟨by simp [hlen], ?_, ?_⟩
          · intro b hb
            rcases List.mem_cons.mp hb with hb | hb
            · subst hb; exact Nat.mod_lt _ (by norm_num)
            · exact hrest b hb
          · simp only [List.zipWith_cons_cons]
            rw [xor_cancel_mid]

/-- Helper for C2: `incrementSequenceNumber` preserves the invariant
`nonce = iv XOR seq` (with byte bounds and matching lengths). -/
theorem incrementSequenceNumber_xor (iv s n s' n' : List Nat)
    (hlen : s.length = iv.length) (hbound : ∀ b ∈ s, b < 256)
    (hxor : n = List.zipWith Nat.xor iv s)
    (h : incrementSequenceNumber s n = some (s', n')) :
    s'.length = iv.length ∧ (∀ b ∈ s', b < 256) ∧ n' = List.zipWith Nat.xor iv s' := by
  unfold incrementSequenceNumber at h
  by_cases h0 : s.length = 0
  · rw [if_pos h0] at h
    simp only [Option.some_inj] at h
    obtain ⟨hs, hn⟩ := Prod.mk.injEq _ _ _ _ ▸ h
    subst hs hn
    exact ⟨hlen, hbound, hxor⟩
  · rw [if_neg h0] at h
    have hlenR : s.reverse.length = iv.reverse.length := by simp [hlen]
    have hboundR : ∀ b ∈ s.reverse, b < 256 := fun b hb =>
      hbound b (List.mem_reverse.mp hb)
    have hxorR : n.reverse = List.zipWith Nat.xor iv.reverse s.reverse := by
      rw [hxor, zipWith_reverse_comm _ _ _ hlen.symm]
    cases hrec : incSeqRev (sequenceNumberLen - 1) s.reverse n.reverse with
    | none => rw [hrec] at h; simp at h
    | some p =>
      obtain ⟨sR', nR'⟩ := p
      rw [hrec] at h
      simp only [Option.some_inj] at h
      obtain ⟨hs, hn⟩ := Prod.mk.injEq _ _ _ _ ▸ h
      rw [hxorR] at hrec
      obtain ⟨hlen', hbound', hxor'⟩ :=
        incSeqRev_xor _ iv.reverse s.reverse _ sR' nR' hlenR hboundR rfl hrec
      subst hs hn
      refine ⟨by simpa using hlen', fun b hb => hbound' b (List.mem_reverse.mp hb), ?_⟩
      rw [hxor']
      rw [zipWith_reverse_comm _ _ _ (by simpa using hlen'.symm)]
      simp

/-- C2.  After `Rekey` (which installs `seq = 0`, `nonce = iv`) and any number
of successful sequence-number increments, the per-byte invariant
`nonce[i] = iv[i] XOR seq[i]` holds, stated as `nonce = zipWith xor iv seq`. -/
theorem rekey_nonce_xor_invariant (iv : List Nat) (n : Nat) (s' n' : List Nat)
    (h : incIter n (rekeySeqNonce iv) = some (s', n')) :
    n' = List.zipWith Nat.xor iv s' := by
  suffices H : ∀ (m : Nat) (st st' : List Nat × List Nat),
      st.1.length = iv.length → (∀ b ∈ st.1, b < 256) →
      st.2 = List.zipWith Nat.xor iv st.1 →
      incIter m st = some st' →
      st'.2 = List.zipWith Nat.xor iv st'.1 by
    refine H n (rekeySeqNonce iv) (s', n') (by simp [rekeySeqNonce]) ?_ ?_ h
    · intro b hb
      simp only [rekeySeqNonce, List.eq_of_mem_replicate hb]
      norm_num
    · simp only [rekeySeqNonce]
      rw [zipWith_xor_replicate_zero iv]
  intro m
  induction m with
  | zero =>
    intro st st' _ _ hxor h'
    simp only [incIter, Option.some_inj] at h'
    subst h'
    exact hxor
  | succ m ih =>
    intro st st' hlen hbound hxor h'
    simp only [incIter] at h'
    cases hinc : incrementSequenceNumber st.1 st.2 with
    | none => rw [hinc] at h'; simp at h'
    | some st₁ =>
      rw [hinc] at h'
      obtain ⟨hlen₁, hbound₁, hxor₁⟩ :=
        incrementSequenceNumber_xor iv st.1 st.2 st₁.1 st₁.2 hlen hbound hxor (by
          rw [hinc])
      exact ih st₁ st' hlen₁ hbound₁ hxor₁ h'

/-- C2 witness: a concrete run, `iv = [1,2,3]` after one increment. -/
theorem rekey_nonce_xor_invariant_witness :
    ([1, 2, 2] : List Nat) = List.zipWith Nat.xor [1, 2, 3] [0, 0, 1] :=
  rekey_nonce_xor_invariant [1, 2, 3] 1 [0, 0, 1] [1, 2, 2] (by decide)

/-- C1.  Sequence numbers never wrap silently: whenever the zero-padded 64-bit
counter is about to wrap to zero (its low eight bytes are all `0xff`),
`incrementSequenceNumber` panics (`none`) instead of continuing with a reused
nonce. -/
theorem sequenceNumber_wraparound_panics (front nonce : List Nat) :
    incrementSequenceNumber (front ++ List.replicate 8 255) nonce = none := by
  unfold incrementSequenceNumber
  have hlen : ¬((front ++ List.replicate 8 255).length = 0) := by simp
  rw [if_neg hlen, List.reverse_append, List.reverse_replicate]
  have h8 : List.replicate 8 (255 : Nat) = List.replicate 7 255 ++ [255] := by decide
  rw [h8, List.append_assoc]
  have := incSeqRev_all255 7 ([255] ++ front.reverse) nonce.reverse
  simp only [sequenceNumberLen]
  rw [this]

end Mint

namespace Mint

/-- Helper for C3: the backward zero scan stops at the first non-zero byte:
on a reversed buffer that starts with `m` zeros followed by a non-zero byte
`c`, it reports `m` skipped bytes, the byte `c` and the rest. -/
theorem padScanRev_zero_pad (c : Nat) (hc : c ≠ 0) (r : List Nat) :
    ∀ (m j : Nat), padScanRev (List.replicate m 0 ++ c :: r) j = some (j + m, c, r) := by
  intro m
  induction m with
  | zero => intro j; simp [padScanRev, hc]
  | succ m ih =>
    intro j
    have hstep : List.replicate (m + 1) 0 ++ c :: r = 0 :: (List.replicate m 0 ++ c :: r) := by
      simp [List.replicate_succ]
    rw [hstep]
    simp only [padScanRev, if_pos rfl]
    rw [ih (j + 1)]
    have h : j + 1 + m = j + (m + 1) := by omega
    rw [h]
    simp

/-- C3.  Record wrap/unwrap round-trips: for a plaintext whose content type is
Alert, Handshake or ApplicationData and whose fragment is at most `2^14`
bytes, encrypting with `padLen` zero-padding bytes under an AEAD and nonce and
decrypting under the same AEAD and nonce returns the original content type,
the original fragment and the padding length `padLen`.  The AEAD is assumed
correct on this plaintext (`openData` inverts `sealData`, and sealing adds
exactly `overhead` bytes). -/
theorem record_wrap_unwrap (A : AEAD) (nonce : List Nat) (pt : TLSPlaintext) (padLen : Nat)
    (hct : pt.contentType = recordTypeAlert ∨ pt.contentType = recordTypeHandshake ∨
      pt.contentType = recordTypeApplicationData)
    (hfrag : pt.fragment.length ≤ maxFragmentLen)
    (hseal : (A.sealData nonce
        (pt.fragment ++ [pt.contentType] ++ List.replicate padLen 0)).length =
      (pt.fragment ++ [pt.contentType] ++ List.replicate padLen 0).length + A.overhead)
    (hopen : A.openData nonce (A.sealData nonce
        (pt.fragment ++ [pt.contentType] ++ List.replicate padLen 0)) =
      some (pt.fragment ++ [pt.contentType] ++ List.replicate padLen 0)) :
    decrypt A nonce (encrypt A nonce pt padLen) = .ok ⟨pt.contentType, pt.fragment⟩ padLen := by
  have hc0 : pt.contentType ≠ 0 := by
    rcases hct with h | h | h <;> rw [h] <;> decide
  simp only [encrypt, decrypt, hseal, hopen]
  rw [if_neg (by omega)]
  have hlen : (pt.fragment ++ [pt.contentType] ++ List.replicate padLen 0).length + A.overhead
      - A.overhead = (pt.fragment ++ [pt.contentType] ++ List.replicate padLen 0).length := by
    omega
  rw [hlen, List.take_length, Nat.sub_self, List.replicate_zero, List.append_nil]
  have hrev : (pt.fragment ++ [pt.contentType] ++ List.replicate padLen 0).reverse =
      List.replicate padLen 0 ++ pt.contentType :: pt.fragment.reverse := by
    simp [List.reverse_append]
  rw [hrev, padScanRev_zero_pad pt.contentType hc0 pt.fragment.reverse padLen 0]
  simp

/-- C3 witness: a concrete round trip with the two-byte-overhead AEAD, a
Handshake fragment `[1,2]` and one byte of padding. -/
theorem record_wrap_unwrap_witness :
    decrypt aeadPad2 [0] (encrypt aeadPad2 [0] ⟨22, [1, 2]⟩ 1) = .ok ⟨22, [1, 2]⟩ 1 :=
  record_wrap_unwrap aeadPad2 [0] ⟨22, [1, 2]⟩ 1 (by decide) (by decide) (by decide) (by decide)

/-- C10 counterexample: for a record whose AEAD decryption succeeds and whose
entire decrypted plaintext consists of zero bytes, the backward padding scan
runs past the start of the buffer (`out.fragment[-1]`, a Go index-out-of-range
panic): `decrypt` does not return a result or a `DecryptError` here. -/
theorem decrypt_all_zero_panics :
    decrypt aeadId [] ⟨recordTypeApplicationData, [0, 0]⟩ = .indexOutOfRange ∧
      aeadId.openData [] [0, 0] = some [0, 0] := by
  decide

/-- Helper for C10: the backward scan finds a stopping byte whenever the
buffer contains some non-zero byte. -/
theorem padScanRev_of_nonzero :
    ∀ (l : List Nat), (∃ b ∈ l, b ≠ 0) → ∀ j, padScanRev l j ≠ none := by
  intro l
  induction l with
  | nil => rintro ⟨b, hb, _⟩; cases hb
  | cons a t ih =>
    rintro ⟨b, hb, hb0⟩ j
    by_cases ha : a = 0
    · subst ha
      have hbt : b ∈ t := by
        rcases List.mem_cons.mp hb with h | h
        · exact absurd (by omega : b = 0) hb0
        · exact h
      simp only [padScanRev, if_pos rfl]
      exact ih ⟨b, hbt, hb0⟩ (j + 1)
    · simp [padScanRev, ha]

/-- C10 amended.  `RecordLayer.decrypt` stays within bounds provided the
decrypted plaintext buffer contains at least one non-zero byte; under that
proviso (and a successful AEAD decryption) it never reaches the
index-out-of-range panic.  On an all-zero (or empty) decrypted plaintext the
backward scan reads `out.fragment[-1]` and panics, as the counterexample
shows. -/
theorem decrypt_no_panic (A : AEAD) (nonce : List Nat) (pt : TLSPlaintext) (fr : List Nat)
    (hopen : A.openData nonce pt.fragment = some fr)
    (hnz : ∃ b ∈ fr.take (pt.fragment.length - A.overhead), b ≠ 0) :
    decrypt A nonce pt ≠ .indexOutOfRange := by
  unfold decrypt
  by_cases hshort : pt.fragment.length < A.overhead
  · simp [hshort]
  · rw [if_neg hshort, hopen]
    simp only
    set buffer := fr.take (pt.fragment.length - A.overhead) ++
      List.replicate (pt.fragment.length - A.overhead - fr.length) 0 with hbuf
    obtain ⟨b, hb, hb0⟩ := hnz
    have hbbuf : b ∈ buffer.reverse := by
      rw [List.mem_reverse, hbuf]
      exact List.mem_append_left _ hb
    cases hscan : padScanRev buffer.reverse 0 with
    | none => exact absurd hscan (padScanRev_of_nonzero _ ⟨b, hbbuf, hb0⟩ 0)
    | some p =>
      obtain ⟨pl, ct, rest⟩ := p
      simp

/-- C10 amended witness: a concrete non-all-zero plaintext decrypts without
the panic. -/
theorem decrypt_no_panic_witness :
    decrypt aeadId [] ⟨recordTypeApplicationData, [5]⟩ ≠ .indexOutOfRange :=
  decrypt_no_panic aeadId [] ⟨recordTypeApplicationData, [5]⟩ [5] (by decide)
    ⟨5, by decide, by decide⟩

end Mint

namespace Mint

/-- Helper for C6: when the cache holds a record and no cached error,
`nextRecord` serves the cached record and leaves the state untouched. -/
theorem nextRecord_cacheHit (r : RL) (pt : TLSPlaintext)
    (h1 : r.cached = some pt) (h2 : r.cachedErr = none) :
    nextRecord r = (.ok pt, r) := by
  unfold nextRecord
  rw [h1, h2]

/-- Helper for C6: a successful `nextRecord` always leaves exactly the
returned record in the cache, with no cached error. -/
theorem nextRecord_ok_cached (r : RL) (pt : TLSPlaintext) (r' : RL)
    (hce : r.cachedErr = none)
    (h : nextRecord r = (.ok pt, r')) :
    r'.cached = some pt ∧ r'.cachedErr = none := by
  unfold nextRecord at h
  cases hc : r.cached with
  | some pt0 =>
    rw [hc, hce] at h
    simp only [Prod.mk.injEq, Except.ok.injEq] at h
    obtain ⟨h1, h2⟩ := h
    subst h2
    cases h1
    exact ⟨hc, hce⟩
  | none =>
    rw [hc] at h
    cases hrf : readFull recordHeaderLen r.stream with
    | none => rw [hrf] at h; simp at h
    | some p =>
      obtain ⟨header, rest1⟩ := p
      rw [hrf] at h
      simp only at h
      split at h
      · simp at h
      · split at h
        · simp at h
        · split at h
          · simp at h
          · cases hrf2 : readFull (header.getD 3 0 * 256 + header.getD 4 0)
                ({ r with stream := rest1 } : RL).stream with
            | none => rw [hrf2] at h; simp at h
            | some q =>
              obtain ⟨frag, rest2⟩ := q
              rw [hrf2] at h
              simp only at h
              split at h
              · simp at h
              · rename_i pt1 hstep
                split at h
                · simp at h
                · cases hinc : incrementSequenceNumber r.seq r.nonce with
                  | none => rw [hinc] at h; simp at h
                  | some sn =>
                    obtain ⟨s', n'⟩ := sn
                    rw [hinc] at h
                    simp only [Prod.mk.injEq, Except.ok.injEq] at h
                    obtain ⟨h1, h2⟩ := h
                    rw [← h2]
                    simp [h1, hce]

/-- C6.  A successful `PeekRecordType` caches the record it inspected: the
returned content type is that record's type, and the following `ReadRecord`
returns the very same record while consuming nothing further from the stream
(the resulting state is the peeked state with only the one-record cache
cleared). -/
theorem peek_then_read (r : RL) (t : Nat) (r' : RL)
    (hce : r.cachedErr = none)
    (hp : PeekRecordType r = (.ok t, r')) :
    ∃ pt, r'.cached = some pt ∧ pt.contentType = t ∧
      ReadRecord r' = (.ok pt, { r' with cached := none, cachedErr := none }) := by
  unfold PeekRecordType at hp
  cases hnr : nextRecord r with
  | mk res r'' =>
    rw [hnr] at hp
    cases res with
    | error e => simp at hp
    | ok pt =>
      simp only [Prod.mk.injEq, Except.ok.injEq] at hp
      obtain ⟨h1, h2⟩ := hp
      rw [h2] at hnr
      obtain ⟨hcache, herr⟩ := nextRecord_ok_cached r pt r' hce hnr
      refine ⟨pt, hcache, h1, ?_⟩
      unfold ReadRecord
      rw [nextRecord_cacheHit r' pt hcache herr]

/-- C6 witness: peeking the buffered Alert record of `rlDemo` and then reading
it back. -/
theorem peek_then_read_witness :
    ∃ pt, rlDemoPeeked.cached = some pt ∧ pt.contentType = 21 ∧
      ReadRecord rlDemoPeeked =
        (.ok pt, { rlDemoPeeked with cached := none, cachedErr := none }) :=
  peek_then_read rlDemo 21 rlDemoPeeked rfl rfl

end Mint

namespace Mint

/-- Helper for C7: when the loop guard `needed() == 0` holds, the copy always
completes the working buffer, so the first `WouldBlock` branch inside the loop
is unreachable. -/
theorem fillStep_complete (s : FR) (h : needed s = 0) :
    ¬((fillStep s).filled.length < (fillStep s).target) := by
  unfold needed at h
  unfold fillStep
  simp only [List.length_append, List.length_take]
  omega

/-- Helper for C7: appending input cannot raise `needed` from zero. -/
theorem needed_addChunk (s : FR) (b : List Nat) (h : needed s = 0) :
    needed (addChunk s b) = 0 := by
  unfold needed addChunk at *
  simp only [List.length_append]
  omega

/-- Helper for C7: with the guard satisfied, the copy consumes the same prefix
whether or not more input is buffered behind it. -/
theorem fillStep_addChunk_filled (s : FR) (b : List Nat) (h : needed s = 0) :
    (fillStep (addChunk s b)).filled = (fillStep s).filled := by
  unfold needed at h
  unfold fillStep addChunk
  simp only
  rw [List.take_append_of_le_length (by omega)]

/-- Helper for C7: the bytes left after the copy are the old leftover followed
by the appended chunk. -/
theorem fillStep_addChunk_remainder (s : FR) (b : List Nat) (h : needed s = 0) :
    (fillStep (addChunk s b)).remainder = (fillStep s).remainder ++ b := by
  unfold needed at h
  unfold fillStep addChunk
  simp only
  rw [List.drop_append_of_le_length (by omega)]

/-- Helper for C7: the body phase in the completing case, as an equation. -/
theorem processBody_eq_of_complete (F : Framing) (s : FR) (h0 : needed s = 0) :
    processBody F s = (.ok (s.hdrBuf, (fillStep s).filled),
      ⟨false, s.hdrBuf, [], F.headerLen, (fillStep s).remainder⟩) := by
  unfold processBody
  rw [if_pos h0, if_neg (fillStep_complete s h0)]

/-- Helper for C7: the body phase blocks exactly when the guard fails, leaving
the state untouched. -/
theorem processBody_eq_of_incomplete (F : Framing) (s : FR) (h0 : ¬needed s = 0) :
    processBody F s = (.error .wouldBlock, s) := by
  unfold processBody
  rw [if_neg h0]

/-- Helper for C7: a successful body phase commutes with appending input. -/
theorem processBody_ok_addChunk (F : Framing) (b : List Nat) (s s' : FR)
    (fr : List Nat × List Nat)
    (h : processBody F s = (.ok fr, s')) :
    processBody F (addChunk s b) = (.ok fr, addChunk s' b) := by
  by_cases h0 : needed s = 0
  · rw [processBody_eq_of_complete F s h0] at h
    simp only [Prod.mk.injEq, Except.ok.injEq] at h
    obtain ⟨h1, h2⟩ := h
    rw [processBody_eq_of_complete F (addChunk s b) (needed_addChunk s b h0)]
    rw [fillStep_addChunk_filled s b h0, fillStep_addChunk_remainder s b h0]
    rw [← h2, ← h1]
    rfl
  · rw [processBody_eq_of_incomplete F s h0] at h
    simp at h

/-- Helper for C7: a successful `Process` commutes with appending input: the
same frame is produced and the appended bytes survive untouched at the end of
the remainder. -/
theorem Process_ok_addChunk (F : Framing) (b : List Nat) (s s' : FR)
    (fr : List Nat × List Nat)
    (h : Process F s = (.ok fr, s')) :
    Process F (addChunk s b) = (.ok fr, addChunk s' b) := by
  unfold Process at h ⊢
  cases hm : s.mode with
  | true =>
    rw [hm] at h
    simp only [if_true] at h
    have hm' : (addChunk s b).mode = true := hm
    rw [hm']
    simp only [if_true]
    exact processBody_ok_addChunk F b s s' fr h
  | false =>
    rw [hm] at h
    simp only [Bool.false_eq_true, if_false] at h
    have hm' : (addChunk s b).mode = false := hm
    rw [hm']
    simp only [Bool.false_eq_true, if_false]
    by_cases h0 : needed s = 0
    · rw [if_pos h0, if_neg (fillStep_complete s h0)] at h
      rw [if_pos (needed_addChunk s b h0),
        if_neg (fillStep_complete (addChunk s b) (needed_addChunk s b h0))]
      rw [fillStep_addChunk_filled s b h0]
      cases hf : F.frameLen (fillStep s).filled with
      | none =>
        rw [hf] at h
        replace h : ((Except.error FErr.frameLenError : Except FErr (List Nat × List Nat)),
            (⟨false, s.hdrBuf, [], s.target, (fillStep s).remainder⟩ : FR)) =
            (Except.ok fr, s') := h
        simp at h
      | some bodyLen =>
        rw [hf] at h
        replace h : processBody F
            ⟨true, (fillStep s).filled, [], bodyLen, (fillStep s).remainder⟩ =
            (.ok fr, s') := h
        show processBody F
            ⟨true, (fillStep s).filled, [], bodyLen, (fillStep (addChunk s b)).remainder⟩ =
          (.ok fr, addChunk s' b)
        rw [fillStep_addChunk_remainder s b h0]
        exact processBody_ok_addChunk F b
          ⟨true, (fillStep s).filled, [], bodyLen, (fillStep s).remainder⟩ s' fr h
    · rw [if_neg h0] at h
      simp at h

/-- Helper for C7: when `Process` blocks, re-running it with more input is the
same as continuing from the blocked state with that input: the partial
progress made before blocking is preserved. -/
theorem Process_block_addChunk (F : Framing) (b : List Nat) (s s' : FR)
    (h : Process F s = (.error .wouldBlock, s')) :
    Process F (addChunk s b) = Process F (addChunk s' b) := by
  unfold Process at h
  cases hm : s.mode with
  | true =>
    rw [hm] at h
    simp only [if_true] at h
    by_cases h0 : needed s = 0
    · rw [processBody_eq_of_complete F s h0] at h
      simp at h
    · rw [processBody_eq_of_incomplete F s h0] at h
      simp only [Prod.mk.injEq] at h
      rw [← h.2]
  | false =>
    rw [hm] at h
    simp only [Bool.false_eq_true, if_false] at h
    by_cases h0 : needed s = 0
    · rw [if_pos h0, if_neg (fillStep_complete s h0)] at h
      cases hf : F.frameLen (fillStep s).filled with
      | none =>
        rw [hf] at h
        replace h : ((Except.error FErr.frameLenError : Except FErr (List Nat × List Nat)),
            (⟨false, s.hdrBuf, [], s.target, (fillStep s).remainder⟩ : FR)) =
            (Except.error FErr.wouldBlock, s') := h
        simp at h
      | some bodyLen =>
        rw [hf] at h
        replace h : processBody F
            ⟨true, (fillStep s).filled, [], bodyLen, (fillStep s).remainder⟩ =
            (.error .wouldBlock, s') := h
        by_cases h1 : needed
            (⟨true, (fillStep s).filled, [], bodyLen, (fillStep s).remainder⟩ : FR) = 0
        · rw [processBody_eq_of_complete F _ h1] at h
          simp at h
        · rw [processBody_eq_of_incomplete F _ h1] at h
          simp only [Prod.mk.injEq] at h
          obtain ⟨-, h2⟩ := h
          subst h2
          have hLHS : Process F (addChunk s b) = processBody F
              (addChunk ⟨true, (fillStep s).filled, [], bodyLen, (fillStep s).remainder⟩ b) := by
            unfold Process
            have hm' : (addChunk s b).mode = false := hm
            rw [hm']
            simp only [Bool.false_eq_true, if_false]
            rw [if_pos (needed_addChunk s b h0),
              if_neg (fillStep_complete (addChunk s b) (needed_addChunk s b h0))]
            rw [fillStep_addChunk_filled s b h0, hf]
            show processBody F
                ⟨true, (fillStep s).filled, [], bodyLen, (fillStep (addChunk s b)).remainder⟩ =
              processBody F
                (addChunk ⟨true, (fillStep s).filled, [], bodyLen, (fillStep s).remainder⟩ b)
            rw [fillStep_addChunk_remainder s b h0]
            rfl
          have hRHS : Process F
              (addChunk ⟨true, (fillStep s).filled, [], bodyLen, (fillStep s).remainder⟩ b) =
              processBody F
              (addChunk ⟨true, (fillStep s).filled, [], bodyLen, (fillStep s).remainder⟩ b) := by
            unfold Process
            have hm'' : (addChunk
                (⟨true, (fillStep s).filled, [], bodyLen, (fillStep s).remainder⟩ : FR) b).mode =
                true := rfl
            rw [hm'']
            simp only [if_true]
          rw [hLHS, hRHS]
    · rw [if_neg h0] at h
      simp only [Prod.mk.injEq] at h
      rw [← h.2]

/-- Helper for C7: `drive` is monotone in its fuel: a finished run is
unaffected by extra fuel. -/
theorem drive_mono (F : Framing) :
    ∀ (n m : Nat) (s : FR) (r : List (List Nat × List Nat) × FR),
      n ≤ m → drive F n s = some r → drive F m s = some r := by
  intro n
  induction n with
  | zero => intro m s r _ h; simp [drive] at h
  | succ k ih =>
    intro m s r hnm h
    cases m with
    | zero => omega
    | succ l =>
      have hkl : k ≤ l := by omega
      simp only [drive] at h ⊢
      cases hP : Process F s with
      | mk res s' =>
        rw [hP] at h
        cases res with
        | ok fr =>
          simp only at h ⊢
          cases hd : drive F k s' with
          | none => rw [hd] at h; simp at h
          | some p =>
            rw [hd] at h
            rw [ih l s' p hkl hd]
            exact h
        | error e =>
          cases e with
          | wouldBlock => simpa using h
          | frameLenError => simp at h

/-- Helper for C7: a run that drives to a block, followed by adding a chunk
and driving again, equals one longer run over the state with the chunk
appended up front. -/
theorem drive_addChunk_concat (F : Framing) (b : List Nat) :
    ∀ (n1 : Nat) (s : FR) (l1 : List (List Nat × List Nat)) (s1 : FR),
      drive F n1 s = some (l1, s1) →
      ∀ (n2 : Nat) (l2 : List (List Nat × List Nat)) (s2 : FR),
        drive F n2 (addChunk s1 b) = some (l2, s2) →
        drive F (n1 + n2) (addChunk s b) = some (l1 ++ l2, s2) := by
  intro n1
  induction n1 with
  | zero => intro s l1 s1 h; simp [drive] at h
  | succ k ih =>
    intro s l1 s1 h n2 l2 s2 h2
    have harith : (k + 1) + n2 = (k + n2) + 1 := by omega
    rw [harith]
    simp only [drive] at h ⊢
    cases hP : Process F s with
    | mk res s' =>
      rw [hP] at h
      cases res with
      | ok fr =>
        simp only at h
        cases hd : drive F k s' with
        | none => rw [hd] at h; simp at h
        | some p =>
          obtain ⟨l1', s1'⟩ := p
          rw [hd] at h
          simp only [Option.some_inj, Prod.mk.injEq] at h
          obtain ⟨hl, hs⟩ := h
          subst hs
          rw [Process_ok_addChunk F b s s' fr hP]
          simp only
          rw [ih s' l1' s1' hd n2 l2 s2 h2]
          rw [← hl]
          simp
      | error e =>
        cases e with
        | frameLenError => simp at h
        | wouldBlock =>
          simp only [Option.some_inj, Prod.mk.injEq] at h
          obtain ⟨hl, hs⟩ := h
          subst hs
          have hcomm := Process_block_addChunk F b s s' hP
          cases n2 with
          | zero => simp [drive] at h2
          | succ m =>
            simp only [drive] at h2
            cases hQ : Process F (addChunk s' b) with
            | mk res2 t =>
              rw [hQ] at h2
              rw [hcomm, hQ]
              cases res2 with
              | ok fr2 =>
                simp only at h2 ⊢
                cases hd2 : drive F m t with
                | none => rw [hd2] at h2; simp at h2
                | some q =>
                  obtain ⟨l2', s2'⟩ := q
                  rw [hd2] at h2
                  simp only [Option.some_inj, Prod.mk.injEq] at h2
                  obtain ⟨hl2, hs2⟩ := h2
                  subst hs2
                  rw [drive_mono F m (k + (m + 1)) t (l2', s2') (by omega) hd2]
                  rw [← hl, ← hl2]
                  simp
              | error e2 =>
                cases e2 with
                | frameLenError => simp at h2
                | wouldBlock =>
                  simp only [Option.some_inj, Prod.mk.injEq] at h2
                  obtain ⟨hl2, hs2⟩ := h2
                  rw [← hl, ← hl2, hs2]
                  simp

/-- Helper for C7: adding two chunks in turn is adding their concatenation. -/
theorem addChunk_addChunk (s : FR) (a b : List Nat) :
    addChunk (addChunk s a) b = addChunk s (a ++ b) := by
  simp [addChunk]

/-- C7.  Chunking invariance of the frame reader: delivering a byte stream in
any partition into chunks, driving `Process` to a block after each chunk,
yields exactly the same sequence of `(header, body)` frames — and the same
final reader state — as delivering the whole stream at once and driving with
the combined fuel.  In particular every byte is consumed in order exactly
once, with residual bytes carried over, and each intermediate run ends on
`WouldBlock` precisely because the buffered bytes do not complete the current
frame. -/
theorem frameReader_chunking (F : Framing) :
    ∀ (chunks : List (List Nat × Nat)) (s : FR) (out : List (List Nat × List Nat)) (sEnd : FR),
      chunks ≠ [] →
      multiRun F chunks s = some (out, sEnd) →
      drive F (chunks.map Prod.snd).sum (addChunk s (chunks.map Prod.fst).flatten) =
        some (out, sEnd) := by
  intro chunks
  induction chunks with
  | nil => intro s out sEnd hne; exact absurd rfl hne
  | cons cn rest ih =>
    intro s out sEnd _ h
    obtain ⟨c, n⟩ := cn
    simp only [multiRun] at h
    cases h1 : drive F n (addChunk s c) with
    | none => rw [h1] at h; simp at h
    | some p1 =>
      obtain ⟨l1, s1⟩ := p1
      rw [h1] at h
      simp only at h
      cases h2 : multiRun F rest s1 with
      | none => rw [h2] at h; simp at h
      | some p2 =>
        obtain ⟨l2, s2⟩ := p2
        rw [h2] at h
        simp only [Option.some_inj, Prod.mk.injEq] at h
        obtain ⟨hout, hend⟩ := h
        subst hend
        cases rest with
        | nil =>
          simp only [multiRun, Option.some_inj, Prod.mk.injEq] at h2
          obtain ⟨hl2, hs2⟩ := h2
          have hjoin : ((([(c, n)] : List (List Nat × Nat))).map Prod.fst).flatten = c := by
            simp
          have hsum : ((([(c, n)] : List (List Nat × Nat))).map Prod.snd).sum = n := by
            simp
          rw [hjoin, hsum, h1, ← hout, ← hl2, hs2]
          simp
        | cons cn2 rest2 =>
          have hrest : multiRun F (cn2 :: rest2) s1 = some (l2, s2) := h2
          have hih := ih s1 l2 s2 (by simp) hrest
          have hcat := drive_addChunk_concat F ((cn2 :: rest2).map Prod.fst).flatten
            n (addChunk s c) l1 s1 h1 ((cn2 :: rest2).map Prod.snd).sum l2 s2 hih
          rw [addChunk_addChunk] at hcat
          have hjoin : ((((c, n) :: cn2 :: rest2)).map Prod.fst).flatten =
              c ++ ((cn2 :: rest2).map Prod.fst).flatten := by simp
          have hsum : ((((c, n) :: cn2 :: rest2)).map Prod.snd).sum =
              n + ((cn2 :: rest2).map Prod.snd).sum := by simp
          rw [hjoin, hsum, ← hout]
          exact hcat

/-- C7 witness: the two-byte-length framing fed `[0,2,7]` then `[8,0,0]`
(a frame `([0,2],[7,8])` split across the chunks, then an empty frame
`([0,0],[])`) yields the same frames as the concatenated stream. -/
theorem frameReader_chunking_witness :
    drive framingDemo ([([0, 2, 7], 2), ([8, 0, 0], 3)].map Prod.snd).sum
        (addChunk (newFrameReader framingDemo)
          (([([0, 2, 7], 2), ([8, 0, 0], 3)].map Prod.fst).flatten : List Nat)) =
      some ([([0, 2], [7, 8]), ([0, 0], [])], ⟨false, [0, 0], [], 2, []⟩) :=
  frameReader_chunking framingDemo [([0, 2, 7], 2), ([8, 0, 0], 3)]
    (newFrameReader framingDemo) [([0, 2], [7, 8]), ([0, 0], [])]
    ⟨false, [0, 0], [], 2, []⟩ (by simp) (by decide)

end Mint

namespace Mint

/-- C5.  In the firewall build, the ClientHello produced by the client's
initial transition carries an all-zero 32-byte `Random`: the PRNG draw is
overwritten by the zeroing loop and not retained, whatever the draw was. -/
theorem clientHello_random_zero (suites draw : List Nat) (h : draw.length = 32) :
    (clientStateStartHello suites draw).random = List.replicate 32 0 := by
  simp only [clientStateStartHello]
  rw [List.map_const']
  rw [h]

/-- C5 witness: a run whose PRNG drew 32 bytes of `7` still emits the zero
random. -/
theorem clientHello_random_zero_witness :
    (clientStateStartHello [0x1301] (List.replicate 32 7)).random = List.replicate 32 0 :=
  clientHello_random_zero [0x1301] (List.replicate 32 7) (by simp)

/-- C8.  A HelloRetryRequest is processed at most once per handshake: when
`ClientStateWaitSH` receives a HelloRetryRequest and the state already records
a previously processed one, the transition returns the fatal
`unexpected_message` alert — before any other validation, so the handshake
terminates instead of looping back to START a second time. -/
theorem second_hrr_fatal (st : ClientStateWaitSH) (prev : HSBody)
    (v c : Nat) (exts : List Ext)
    (h : st.helloRetryRequest = some prev) :
    clientStateWaitSHNext st (some (.helloRetryRequest v c exts)) =
      .fatalAlert alertUnexpectedMessage := by
  simp [clientStateWaitSHNext, h]

/-- C8 witness: a concrete second HelloRetryRequest is rejected. -/
theorem second_hrr_fatal_witness :
    clientStateWaitSHNext ⟨[0x1301], some .other⟩
        (some (.helloRetryRequest supportedVersion 0x1301 [⟨extensionTypeCookie, [1]⟩])) =
      .fatalAlert alertUnexpectedMessage :=
  second_hrr_fatal ⟨[0x1301], some .other⟩ .other supportedVersion 0x1301
    [⟨extensionTypeCookie, [1]⟩] rfl

/-- C9 counterexample: the signature input computed by the code is not the
spec's client-variant input — the code never uses the client context string,
also when the client signs (`ClientStateWaitFinished` calls
`certificateVerify.Sign`, which uses the same `EncodeSignatureInput`). -/
theorem certVerify_client_context_missing :
    encodeSignatureInput [1] ≠ specSignatureInput .client [1] := by
  decide

/-- C9 amended.  The input over which a CertificateVerify signature is
computed or verified is: 64 bytes of `0x20`, then the ASCII context string
`"TLS 1.3, server CertificateVerify"` terminated by a single NUL byte, then
the transcript hash — for both server and client signatures; the code never
switches to the client variant of the context string. -/
theorem certVerify_input_layout (data : List Nat) :
    encodeSignatureInput data = specSignatureInput .server data ∧
      encodeSignatureInput data =
        List.replicate 64 0x20 ++
          [0x54, 0x4c, 0x53, 0x20, 0x31, 0x2e, 0x33, 0x2c, 0x20, 0x73, 0x65, 0x72, 0x76,
            0x65, 0x72, 0x20, 0x43, 0x65, 0x72, 0x74, 0x69, 0x66, 0x69, 0x63, 0x61, 0x74,
            0x65, 0x56, 0x65, 0x72, 0x69, 0x66, 0x79] ++ [0] ++ data := by
  constructor
  · rfl
  · have hpre : List.replicate 64 (0x20 : Nat) ++ cvContextString.toList.map Char.toNat =
        List.replicate 64 0x20 ++
          [0x54, 0x4c, 0x53, 0x20, 0x31, 0x2e, 0x33, 0x2c, 0x20, 0x73, 0x65, 0x72, 0x76,
            0x65, 0x72, 0x20, 0x43, 0x65, 0x72, 0x74, 0x69, 0x66, 0x69, 0x63, 0x61, 0x74,
            0x65, 0x56, 0x65, 0x72, 0x69, 0x66, 0x79] := by decide
    unfold encodeSignatureInput
    rw [hpre]

/-- C4 evidence.  At a concrete ClientHello record carrying a BN256 key share
`[5]`, with a rerandomization that returns `[7]`: the code's `processCH`
emits the packet with the original share — byte for byte the input packet —
while the spec-required rewrite emits the packet with the rerandomized share;
the two outputs differ.  Afterwards (readCH set), further C→S messages are
forwarded unchanged. -/
theorem processCH_drops_rerandomization :
    processCH rerandDemo chDemoPacket = some chDemoPacket ∧
      specProcessCH rerandDemo chDemoPacket =
        some (writePacket handshakeTypeClientHello (chMarshal
          { chDemo with extensions := [⟨extensionTypeKeyShare, ksMarshal [(BN256, [7])]⟩] })) ∧
      processCH rerandDemo chDemoPacket ≠ specProcessCH rerandDemo chDemoPacket ∧
      ProcessMessage rerandDemo true false 1 chDemoPacket =
        some (chDemoPacket, true, false) := by
  decide

end Mint
